import Mathlib

/-!
# Verification of `nb2plots/nbplots.py`

A shallow embedding of the `nbplots` Sphinx extension (file
`nb2plots/nbplots.py`) together with theorems settling the frozen claims
about it.  Python strings are Lean `String`s, Python lists are Lean
`List`s, Python dicts are association lists, and the process-wide state
touched by the code runner is an explicit record threaded through the
functions.  Fallible code returns `Except String`.
-/

namespace Nbplots

/-! ## Python string primitives

Helpers mirroring the Python `str` methods used by `nbplots.py`, for text
made of ASCII characters (the directive contents this extension
processes).  Python `str.strip()` removes the six ASCII whitespace
characters from both ends; `str.splitlines()` splits on `'\n'` for text
whose only line-break character is `'\n'`; `str.split()` with no argument
splits on runs of whitespace and never returns empty fields.
-/

/-- The six ASCII characters stripped by Python `str.strip()` and matched
by the regex class `\s`. -/
def pyWSChar (c : Char) : Bool :=
  c = ' ' ∨ c = '\t' ∨ c = '\n' ∨ c = '\r' ∨ c = '\x0b' ∨ c = '\x0c'

/-- Python `str.strip()` (ASCII text). -/
def pyStrip (s : String) : String :=
  String.mk (((s.toList.dropWhile pyWSChar).reverse.dropWhile pyWSChar).reverse)

/-- Split a character list at every separator character; like Python
`str.split(sep)` this keeps empty fields and the result is never
empty. -/
def splitPred (p : Char → Bool) : List Char → List (List Char)
  | [] => [[]]
  | c :: t =>
    if p c then [] :: splitPred p t
    else
      match splitPred p t with
      | [] => [[c]]
      | h :: r => (c :: h) :: r

/-- Split a character list at every `'\n'`. -/
def splitNL (cs : List Char) : List (List Char) :=
  splitPred (fun c => c = '\n') cs

/-- Python `str.splitlines()` for text whose only line break is `'\n'`:
empty text yields no lines, and a trailing newline does not produce a
final empty line. -/
def pySplitlines (s : String) : List String :=
  if s = "" then []
  else
    let chunks := (splitNL s.toList).map String.mk
    if s.toList.getLast? = some '\n' then chunks.dropLast else chunks

/-- `'\n'.join(lines)`. -/
def joinNL : List String → String
  | [] => ""
  | [s] => s
  | s :: t :: r => s ++ "\n" ++ joinNL (t :: r)

/-- Python `str.split()` with no separator: split on whitespace runs,
discarding empty fields. -/
def splitWS (s : String) : List String :=
  ((splitPred pyWSChar s.toList).map String.mk).filter (· ≠ "")

/-! ## Builder-visibility policy

`nbplot_container.likes_builder`, `_hide_from_builder` and
`NBPlotDirective._proc_builder_opts` from `nbplots.py`.  A node's
visibility attributes are the two builder-name lists `hide-from` and
`show-to` (`rst2nodes` only stores them when non-empty, and
`likes_builder` reads them back with default `[]`, so carrying the two
lists directly is equivalent).
-/

/-- The `hide-from` / `show-to` attribute pair attached to emitted nodes. -/
structure BuilderAttrs where
  hideFrom : List String
  showTo : List String
deriving DecidableEq

/-- `nbplot_container.likes_builder`: is the node acceptable to
`builder_name`? -/
def likes_builder (hide_from show_to : List String) (builder_name : String) : Bool :=
  if show_to.contains builder_name then true
  else if hide_from.contains "all" then false
  else !(hide_from.contains builder_name)

/-- `_hide_from_builder`: update the attribute pair so that it signals
hiding from `builder_name`.  Python's `list.remove` drops the first
occurrence only (it is guarded by a membership test), and the append is
guarded by a membership test. -/
def hide_from_builder (attrs : BuilderAttrs) (builder_name : String) : BuilderAttrs :=
  let st := if attrs.showTo.contains builder_name
            then attrs.showTo.erase builder_name else attrs.showTo
  let hf := if attrs.hideFrom.contains builder_name
            then attrs.hideFrom else attrs.hideFrom ++ [builder_name]
  ⟨hf, st⟩

/-- The builder names of an optional `hide-from` / `show-to` directive
option value: `options[opt_name].split()` followed by `b_name.strip()`
on each field; an absent option contributes nothing. -/
def optBuilderNames : Option String → List String
  | none => []
  | some s => (splitWS s).map pyStrip

/-- `NBPlotDirective._proc_builder_opts`: the base attribute pair chosen
from the effective `include-source` option (explicit option overriding
the `nbplot_include_source` configuration default), with the explicit
`hide-from` / `show-to` option values appended. -/
def proc_builder_opts (incOpt : Option Bool) (configInc : Bool)
    (hideOpt showOpt : Option String) : BuilderAttrs :=
  let inc := incOpt.getD configInc
  let base : BuilderAttrs := if inc then ⟨[], []⟩ else ⟨["all"], ["doctest"]⟩
  ⟨base.hideFrom ++ optBuilderNames hideOpt, base.showTo ++ optBuilderNames showOpt⟩

/-! ## Doctest handling

`contains_doctest` and `unescape_doctest`.  The Python compiler invoked
by `compile(text, '<string>', 'exec')` is external to this file; it is a
parameter `compiles : String → Bool` of the two functions.
-/

/-- The regex search `re.compile(r'^\s*>>>', re.M).search(text)`: some
line of `text`, after discarding leading whitespace, starts with `>>>`
(a `\s*` run that crosses line breaks to reach a `>>>` always leaves an
equivalent match starting on the line of the `>>>` itself). -/
def hasDoctestMarker (text : String) : Bool :=
  (splitPred (fun c => c = '\n') text.toList).any fun l =>
    ((l.dropWhile pyWSChar).take 3) = ['>', '>', '>']

/-- `contains_doctest`: text that compiles as-is is not a doctest;
otherwise look for a `>>>` line. -/
def contains_doctest (compiles : String → Bool) (text : String) : Bool :=
  if compiles text then false else hasDoctestMarker text

/-- The per-line translation inside `unescape_doctest`: a line matching
`^\s*(>>>|\.\.\.) (.*)$` contributes the text after the marker, another
non-blank line becomes a comment, a blank line stays blank. -/
def unescapeLine (line : String) : String :=
  let rest := String.mk (line.toList.dropWhile pyWSChar)
  if rest.startsWith ">>> " then rest.drop 4 ++ "\n"
  else if rest.startsWith "... " then rest.drop 4 ++ "\n"
  else if pyStrip line ≠ "" then "# " ++ pyStrip line ++ "\n"
  else "\n"

/-- `unescape_doctest`: return `text` unchanged unless it is doctest
text, in which case translate it line by line. -/
def unescape_doctest (compiles : String → Bool) (text : String) : String :=
  if contains_doctest compiles text = false then text
  else String.join ((splitPred (fun c => c = '\n') text.toList).map
    fun cs => unescapeLine (String.mk cs))

/-! ## Part parser

`parse_parts` and its helpers.  The separator regex

    PARTER = (?:\n\n|^)\.\.\ part\n((?:\ *\w+\ *=\ *.+\n)*)\n

is modelled at line level on the lines of the stripped directive text: a
match is a `.. part` line that either sits at the very start of the text
or is preceded by an unconsumed blank line together with the newline of
the line before it, followed by the maximal run of attribute-shaped
lines and then a blank line.  `re.split` scans left to right with
non-overlapping matches, so after a match the scan resumes on the line
after its trailing blank line, and the next match needs its two leading
newline characters to lie at or after that point (separator line index
`p` with `p ≥ pos + 2`).
-/

/-- ASCII model of the regex class `\w`. -/
def isWordChar (c : Char) : Bool :=
  c.isAlphanum || c = '_'

/-- One line of the attribute group of `PARTER`:
`\ *\w+\ *=\ *.+` matched against the whole line. -/
def attrLine (l : String) : Bool :=
  let r1 := l.toList.dropWhile (· = ' ')
  let w := r1.takeWhile isWordChar
  let r2 := (r1.dropWhile isWordChar).dropWhile (· = ' ')
  !w.isEmpty && r2.head? = some '=' && !r2.tail.isEmpty

/-- Length of the maximal run of attribute lines. -/
def attrCount (ls : List String) : Nat :=
  (ls.takeWhile attrLine).length

/-- Does a `PARTER` match whose separator line is `sl[p]` start at or
after the scan position `pos` (index of the first unconsumed line)? -/
def isMatchAt (sl : List String) (pos p : Nat) : Bool :=
  (sl.getD p "x" = ".. part") &&
  ((p = 0 && pos = 0) || (decide (pos + 2 ≤ p) && sl.getD (p - 1) "x" = "")) &&
  (let k := attrCount (sl.drop (p + 1))
   decide (p + 1 + k < sl.length) && sl.getD (p + 1 + k) "x" = "")

/-- Leftmost `PARTER` match from scan position `pos`: the smallest
eligible separator-line index. -/
def findSep (sl : List String) (pos : Nat) : Option Nat :=
  (List.range sl.length).find? fun p => decide (pos ≤ p) && isMatchAt sl pos p

/-- `PARTER.split` on the text with lines `sl`: the alternating list of
content chunks and captured attribute groups (each chunk rendered back
to the string the regex split would return). -/
def scanParts (sl : List String) : Nat → Nat → List String
  | pos, 0 => [joinNL (sl.drop pos)]
  | pos, fuel + 1 =>
    match findSep sl pos with
    | none => [joinNL (sl.drop pos)]
    | some p =>
      let k := attrCount (sl.drop (p + 1))
      let chunk := joinNL ((sl.drop pos).take (p - 1 - pos))
      let attrsStr := String.join (((sl.drop (p + 1)).take k).map (· ++ "\n"))
      chunk :: attrsStr :: scanParts sl (p + k + 2) fuel

/-- One parsed part: its attribute dictionary and its content lines. -/
structure Part where
  attrs : List (String × String)
  contents : List String
deriving DecidableEq

/-- Python dict assignment `d[k] = v`: replace the value in place if the
key exists, else append the pair. -/
def dictInsert {α : Type} (dct : List (String × α)) (k : String) (v : α) :
    List (String × α) :=
  if dct.any (·.1 = k) then dct.map fun p => if p.1 = k then (k, v) else p
  else dct ++ [(k, v)]

/-- `dict(pairs)`: left-to-right insertion. -/
def dictOfPairs (ps : List (String × String)) : List (String × String) :=
  ps.foldl (fun d p => dictInsert d p.1 p.2) []

/-- `ATTRIBUTER.match(line).groups()` for `^(\w+) *= *(.+?) *$`: the
leading word-character run and the value after `=` stripped of
surrounding spaces (a value of spaces only collapses to one space, the
single character the lazy `.+?` is forced to keep). -/
def attributerMatch (line : String) : Option (String × String) :=
  let cs := line.toList
  let w := cs.takeWhile isWordChar
  if w.isEmpty then none
  else
    match (cs.dropWhile isWordChar).dropWhile (· = ' ') with
    | '=' :: r =>
      if r.isEmpty then none
      else if r.all (· = ' ') then some (String.mk w, " ")
      else some (String.mk w,
                 String.mk (((r.dropWhile (· = ' ')).reverse.dropWhile (· = ' ')).reverse))
    | _ => none

/-- Longest common prefix of two character lists. -/
def commonPfx : List Char → List Char → List Char
  | a :: as, b :: bs => if a = b then a :: commonPfx as bs else []
  | _, _ => []

/-- The `[ \t]*` indent of a line. -/
def indentOf (l : String) : List Char :=
  l.toList.takeWhile fun c => c = ' ' || c = '\t'

/-- `textwrap.dedent`, acting on the list of lines: whitespace-only
lines are normalized to empty, the margin is the longest common indent
of the remaining lines, and that margin is removed from every line that
starts with it. -/
def dedentLines (ls : List String) : List String :=
  let ls' := ls.map fun l =>
    if l ≠ "" ∧ l.toList.all (fun c => c = ' ' || c = '\t') then "" else l
  let margin := ((ls'.filter (· ≠ "")).foldl
    (fun m l => match m with
      | none => some (indentOf l)
      | some m' => some (commonPfx m' (indentOf l))) (none : Option (List Char))).getD []
  ls'.map fun l =>
    if l.toList.take margin.length = margin then String.mk (l.toList.drop margin.length) else l

/-- `_proc_part_def`: attribute dictionary of one captured attribute
group (`textwrap.dedent` then `splitlines` commute, both being
linewise, so the dedent is applied to the split lines). -/
def procPartDef (s : String) : Except String (List (String × String)) :=
  if s = "" then .ok []
  else if ¬ s.startsWith " " then .error "Part attributes should be indented"
  else
    let justified := dedentLines (pySplitlines s)
    if justified.any (·.startsWith " ") then
      .error "Part attributes should have same indentation"
    else
      match justified.mapM attributerMatch with
      | some pairs => .ok (dictOfPairs pairs)
      | none => .error "AttributeError"

/-- `_part_strs2dicts`: consume (attribute group, contents chunk) pairs.
The final `part_dict['contents'] = ...` assignment overwrites any
attribute literally named `contents`, so such an attribute never
survives. -/
def partStrs2dicts : List String → Except String (List Part)
  | [] => .ok []
  | [_] => .error "IndexError"
  | a :: c :: rest => do
    let attrs ← procPartDef a
    let parts ← partStrs2dicts rest
    .ok (⟨attrs.filter (·.1 ≠ "contents"), pySplitlines c⟩ :: parts)

/-- `parse_parts`: strip the joined directive content, split it on the
part separator, and build the part dictionaries; content with no
separator is a single attribute-less part. -/
def parse_parts (lines : List String) : Except String (List Part) :=
  let text := pyStrip (joinNL lines)
  let sl := pySplitlines text
  match scanParts sl 0 (sl.length + 1) with
  | [c] => .ok [⟨[], pySplitlines c⟩]
  | c0 :: rest => if c0 = "" then partStrs2dicts rest else partStrs2dicts ("" :: c0 :: rest)
  | [] => .ok []

/-! ## Python values

The value universe needed by the selection expressions: integers
(Python `bool` is a subclass of `int` and behaves as the integer 0 or 1,
so it is covered by `int`), floats (only their non-integer nature
matters here), strings, lists/tuples, and `None`.  `str`, `list` and
`tuple` are the `collections.abc.Sequence` instances of this universe.
-/

inductive PyVal : Type where
  | int : Int → PyVal
  | float : PyVal
  | str : String → PyVal
  | vlist : List PyVal → PyVal
  | pynone : PyVal

/-- `isinstance(v, Sequence)` for this universe. -/
def PyVal.isSequence : PyVal → Bool
  | .str _ => true
  | .vlist _ => true
  | _ => false

/-- Iterating a sequence: a string yields its characters as one-element
strings, a list yields its elements.  (Only applied to sequences.) -/
def PyVal.seqElems : PyVal → List PyVal
  | .str s => s.toList.map fun c => .str (String.mk [c])
  | .vlist l => l
  | v => [v]

def PyVal.isInt : PyVal → Bool
  | .int _ => true
  | _ => false

/-- The evaluation result shapes the claim allows: a single integer, or
an ordered sequence all of whose elements are integers. -/
def isIntOrIntSeq (v : PyVal) : Bool :=
  v.isInt || (v.isSequence && v.seqElems.all PyVal.isInt)

/-- `parts[i]` on a Python list: an integer index (negative counting
from the end) selects an element or raises `IndexError`; a non-integer
index raises `TypeError`. -/
def pyIndex (parts : List Part) (i : PyVal) : Except String Part :=
  match i with
  | .int n =>
    let m := if n < 0 then n + parts.length else n
    if h : 0 ≤ m ∧ m.toNat < parts.length then .ok (parts.get ⟨m.toNat, h.2⟩)
    else .error "IndexError"
  | _ => .error "TypeError"

/-! ## Flag namespaces

`do_builder_init`, `do_purge_doc` and the accesses to
`env.nbplot_flag_namespaces`.  The namespaces are Python dict objects
with identity, so the embedding carries an explicit heap: `Env.store`
is the list of live dict objects, a cell number is an index into it,
and allocating a fresh dict appends to the heap.  `configFlagsCell` is
the cell holding the configuration's `nbplot_flags` dict;
`flagCells` maps a docname to the cell its flag namespace currently
lives in (a rebinding shadows, lookup takes the newest binding, which
models dict assignment).
-/

abbrev Dict := List (String × PyVal)

structure Env where
  store : List Dict
  flagCells : List (String × Nat)
  resetMarkers : List (String × Bool)
  configFlagsCell : Nat

/-- `do_builder_init`: install fresh empty `defaultdict`s for the reset
markers and the flag namespaces. -/
def do_builder_init (e : Env) : Env :=
  { e with flagCells := [], resetMarkers := [] }

/-- Reading `env.nbplot_flag_namespaces[docname]`: a bound docname
yields its cell; a missing one makes the `defaultdict(dict)` allocate a
fresh empty dict and bind it. -/
def accessFlagNs (e : Env) (docname : String) : Env × Nat :=
  match e.flagCells.find? (·.1 = docname) with
  | some p => (e, p.2)
  | none =>
    ({ e with store := e.store ++ [[]]
              flagCells := (docname, e.store.length) :: e.flagCells },
     e.store.length)

/-- `do_purge_doc`: clear the reset marker and rebind the docname's flag
namespace to a fresh copy (`env.config.nbplot_flags.copy()`) of the
configured default mapping. -/
def do_purge_doc (e : Env) (docname : String) : Env :=
  { e with resetMarkers := (docname, false) :: e.resetMarkers
           store := e.store ++ [e.store.getD e.configFlagsCell []]
           flagCells := (docname, e.store.length) :: e.flagCells }

/-- An assignment executed by the `nbplot-flags` directive against
`env.nbplot_flag_namespaces[docname]`: mutate the dict object in place. -/
def setFlag (e : Env) (docname k : String) (v : PyVal) : Env :=
  let ec := accessFlagNs e docname
  { ec.1 with store := ec.1.store.set ec.2 (dictInsert (ec.1.store.getD ec.2 []) k v) }

/-- The contents a reader of `env.nbplot_flag_namespaces[docname]`
observes (a missing binding reads as the fresh empty dict the
`defaultdict` would hand out). -/
def obsNs (e : Env) (docname : String) : Dict :=
  match e.flagCells.find? (·.1 = docname) with
  | some p => e.store.getD p.2 []
  | none => []

/-- The contents of the configuration's `nbplot_flags` dict. -/
def configFlags (e : Env) : Dict :=
  e.store.getD e.configFlagsCell []

/-- The heap is well formed when every reachable cell number points into
the store. -/
def Env.WF (e : Env) : Prop :=
  (∀ p ∈ e.flagCells, p.2 < e.store.length) ∧ e.configFlagsCell < e.store.length

/-! ## Part selection

`NBPlotDirective._get_parts` and the indexing comprehension of
`_select_parts`.  Evaluation of the user expression is the external
Python `eval`, a parameter `evalF` that receives the expression and the
namespace dict it runs in and returns the (possibly mutated) namespace
together with the result value.
-/

/-- `eval(self.options[option_name], name_space)` where `name_space` is
`env.nbplot_flag_namespaces[env.docname].copy()`: the expression runs on
a value snapshot of the stored dict, and whatever `evalF` did to its
copy is discarded. -/
def eval_option (e : Env) (docname expr : String)
    (evalF : String → Dict → Dict × PyVal) : Env × PyVal :=
  let ec := accessFlagNs e docname
  let nsCopy := ec.1.store.getD ec.2 []
  (ec.1, (evalF expr nsCopy).2)

/-- `_get_parts`: default `(0,)` when the option is absent, else the
evaluation result, wrapped into a one-element tuple unless it already is
a `Sequence`; returned as the list of values the caller iterates. -/
def get_parts (e : Env) (docname : String) (opt : Option String)
    (evalF : String → Dict → Dict × PyVal) : Env × List PyVal :=
  match opt with
  | none => (e, [.int 0])
  | some expr =>
    let ev := eval_option e docname expr evalF
    (ev.1, if ev.2.isSequence then ev.2.seqElems else [ev.2])

/-- One arm of `_select_parts`:
`[parts[i]['contents'] for i in self._get_parts(option_name)]`. -/
def select_option (e : Env) (docname : String) (parts : List Part)
    (opt : Option String) (evalF : String → Dict → Dict × PyVal) :
    Env × Except String (List (List String)) :=
  let gp := get_parts e docname opt evalF
  (gp.1, gp.2.mapM fun i => (pyIndex parts i).map Part.contents)

/-! ## Code runner

`run_code`.  The process-wide state it saves, mutates and restores is an
explicit record; executing a code string with `six.exec_` is an
`ExecEffect` parameter that may mutate that state and may raise (the
namespace bookkeeping — `unescape_doctest`, the `print` stub, the
`__name__` binding, `remove_coding` — only affects the executed
namespace and is absorbed into the effect).  `sys.stdout` is replaced by
a fresh in-memory stream, modelled by a fresh stream identifier.  A
`PlotError` raised for a captured traceback is an `Except.error`. -/

structure ProcState where
  cwd : String
  sysPath : List String
  argv : List (Option String)
  stdoutId : Nat
  nextStreamId : Nat
deriving DecidableEq

/-- A raised Python exception, identified by its class name. -/
structure PyExn where
  cls : String
deriving DecidableEq

abbrev ExecEffect := ProcState → ProcState × Option PyExn

/-- `run_code`: save cwd, `sys.path`, `sys.argv`, `sys.stdout`; chdir to
the working directory and push it onto `sys.path`; run the preamble (if
given and the namespace is empty), the code (suppressing an expected
exception class, mapping any other escape to `PlotError`), and the named
function; finally restore the four saved pieces of state
unconditionally. -/
def run_code
    (code_eff pre_eff func_eff : ExecEffect)
    (has_pre ns_empty has_function : Bool)
    (code_path : Option String) (workdir : Option String)
    (raises : Option String)
    (isinst : PyExn → String → Bool)
    (s0 : ProcState) : ProcState × Except String Unit :=
  let pwd := s0.cwd
  let old_sys_path := s0.sysPath
  let wd := workdir.getD s0.cwd
  let s1 : ProcState := { s0 with cwd := wd, sysPath := wd :: s0.sysPath }
  let old_sys_argv := s1.argv
  let s2 : ProcState := { s1 with argv := [code_path] }
  let stdout := s2.stdoutId
  let s3 : ProcState := { s2 with stdoutId := s2.nextStreamId
                                  nextStreamId := s2.nextStreamId + 1 }
  let body : ProcState × Except String Unit :=
    match (if has_pre && ns_empty then pre_eff s3 else (s3, none)) with
    | (s4, some e) => (s4, .error ("PlotError: " ++ e.cls))
    | (s4, none) =>
      let afterMain : ProcState × Except String Unit :=
        match raises, code_eff s4 with
        | none, (s5, some e) => (s5, .error ("PlotError: " ++ e.cls))
        | none, (s5, none) => (s5, .ok ())
        | some cls, (s5, some e) =>
          if isinst e cls then (s5, .ok ())
          else (s5, .error ("PlotError: " ++ e.cls))
        | some _, (s5, none) => (s5, .ok ())
      match afterMain with
      | (s6, .ok _) =>
        if has_function then
          match func_eff s6 with
          | (s7, some e) => (s7, .error ("PlotError: " ++ e.cls))
          | (s7, none) => (s7, .ok ())
        else (s6, .ok ())
      | err => err
  ({ body.1 with cwd := pwd
                 argv := old_sys_argv
                 sysPath := old_sys_path
                 stdoutId := stdout },
   body.2)

/-! ## Figure harvesting

The tail of `render_figures`: after the code has run, every figure
manager the backend tracks (in registration order) produces one
`ImageFile`, named from `output_base` with a `_%02d` index suffix when
there is more than one figure, and each requested format is written
(a failing write raises `PlotError`). -/

structure ImageFile where
  basename : String
  dirname : String
  formats : List String
deriving DecidableEq

/-- Python `'%02d' % j` for a nonnegative `j`: zero-pad to width 2. -/
def fmt02 (j : Nat) : String :=
  if j < 10 then "0" ++ toString j else toString j

/-- The figure-harvesting loop of `render_figures`, with the number of
live figure managers and the per-figure/per-format success of
`figman.canvas.figure.savefig` as parameters. -/
def render_figures_harvest (nFigs : Nat) (output_base output_dir : String)
    (formats : List (String × Nat)) (savefigOk : Nat → String → Bool) :
    Except String (List ImageFile) :=
  (List.range nFigs).mapM fun j =>
    let base := if nFigs = 1 then output_base else output_base ++ "_" ++ fmt02 j
    (formats.mapM fun fd =>
      if savefigOk j fd.1 then Except.ok fd.1
      else Except.error "PlotError: traceback").map
      fun fmts => ImageFile.mk base output_dir fmts

/-! ## Shared helper lemmas -/

theorem contains_eq_true_iff {l : List String} {a : String} :
    l.contains a = true ↔ a ∈ l :=
  List.elem_iff

theorem contains_eq_false_iff {l : List String} {a : String} :
    l.contains a = false ↔ a ∉ l := by
  rw [← Bool.not_eq_true, not_iff_not]
  exact contains_eq_true_iff

/-- Membership characterization of `_hide_from_builder`. -/
theorem hide_from_builder_eq (attrs : BuilderAttrs) (n : String) :
    hide_from_builder attrs n =
      ⟨if n ∈ attrs.hideFrom then attrs.hideFrom else attrs.hideFrom ++ [n],
       if n ∈ attrs.showTo then attrs.showTo.erase n else attrs.showTo⟩ := by
  simp only [hide_from_builder, contains_eq_true_iff]

/-- `mapM` over `Except` succeeds elementwise. -/
theorem mapM_ok_of_forall {α β : Type} {l : List α} {f : α → Except String β}
    {g : α → β} (h : ∀ x ∈ l, f x = .ok (g x)) :
    l.mapM f = .ok (l.map g) := by
  induction l with
  | nil => rfl
  | cons a t ih =>
    rw [List.mapM_cons, h a (List.mem_cons_self a t),
        ih fun x hx => h x (List.mem_cons_of_mem a hx)]
    rfl

/-- `mapM` over `Except` fails as soon as some element fails. -/
theorem mapM_not_ok_of_mem {α β : Type} {l : List α} {f : α → Except String β}
    {x : α} (hx : x ∈ l) (he : ∀ y, f x ≠ .ok y) :
    (l.mapM f).isOk = false := by
  induction l with
  | nil => cases hx
  | cons a t ih =>
    rw [List.mapM_cons]
    rcases List.mem_cons.mp hx with rfl | hxt
    · cases hfa : f x with
      | error e => rfl
      | ok y => exact absurd hfa (he y)
    · cases hfa : f a with
      | error e => rfl
      | ok y =>
        have := ih hxt
        cases hmt : t.mapM f with
        | error e => rfl
        | ok ys => rw [hmt] at this; cases this

/-! ## Claims -/

/-- C2: for every builder name queried against a node's visibility
attributes, `likes_builder` returns true if the name is in `show-to`;
otherwise false if the sentinel `"all"` is in `hide-from`; otherwise
false if the name itself is in `hide-from`; otherwise true — so
`show-to` membership overrides any `hide-from` entry, including the
`"all"` sentinel. -/
theorem likes_builder_contract (hf st : List String) (n : String) :
    (n ∈ st → likes_builder hf st n = true) ∧
    (n ∉ st → "all" ∈ hf → likes_builder hf st n = false) ∧
    (n ∉ st → "all" ∉ hf → n ∈ hf → likes_builder hf st n = false) ∧
    (n ∉ st → "all" ∉ hf → n ∉ hf → likes_builder hf st n = true) := by
  refine ⟨fun h1 => ?_, fun h1 h2 => ?_, fun h1 h2 h3 => ?_, fun h1 h2 h3 => ?_⟩ <;>
    simp only [likes_builder] <;> simp <;> tauto

/-- C2 witness: an explicit `show-to: doctest` on top of
`hide-from: all` still accepts the `doctest` builder. -/
theorem likes_builder_contract_witness :
    likes_builder ["all"] ["doctest"] "doctest" = true :=
  (likes_builder_contract ["all"] ["doctest"] "doctest").1 (by decide)

/-- C4: the base visibility attributes are `hide-from = ["all"]`,
`show-to = ["doctest"]` when the effective `include-source` option
(explicit option, else configuration default) is false, and two empty
lists when it is true; explicit `hide-from` / `show-to` option values
are appended to these base lists, never replacing them. -/
theorem proc_builder_opts_contract (incOpt : Option Bool) (configInc : Bool)
    (hideOpt showOpt : Option String) :
    (incOpt.getD configInc = false →
      proc_builder_opts incOpt configInc hideOpt showOpt =
        ⟨"all" :: optBuilderNames hideOpt, "doctest" :: optBuilderNames showOpt⟩) ∧
    (incOpt.getD configInc = true →
      proc_builder_opts incOpt configInc hideOpt showOpt =
        ⟨optBuilderNames hideOpt, optBuilderNames showOpt⟩) := by
  unfold proc_builder_opts
  constructor <;> intro h <;> simp [h]

/-- C4 witness: `include-source: false` with `hide-from: " html  latex "`
and no `show-to` option. -/
theorem proc_builder_opts_contract_witness :
    proc_builder_opts (some false) true (some " html  latex ") none =
      ⟨["all", "html", "latex"], ["doctest"]⟩ :=
  ((proc_builder_opts_contract (some false) true (some " html  latex ") none).1
    rfl).trans (by decide)

/-- C9: text that compiles as valid Python is returned unchanged by
`unescape_doctest`, even when it contains `>>>` lines; and text without
a `>>>` line is returned unchanged as well, so the transcript-to-code
translation is applied only to text that both fails to compile and
contains a `>>>` line. -/
theorem unescape_doctest_id (compiles : String → Bool) (text : String)
    (h : compiles text = true ∨ hasDoctestMarker text = false) :
    unescape_doctest compiles text = text := by
  rcases h with h | h <;> simp [unescape_doctest, contains_doctest, h]

/-- C9 witness: a compiler accepting the text (e.g. the `>>>` sits in a
string literal) leaves a `>>>` line untouched. -/
theorem unescape_doctest_id_witness :
    unescape_doctest (fun _ => true) ">>> 1 + 1" = ">>> 1 + 1" :=
  unescape_doctest_id (fun _ => true) ">>> 1 + 1" (Or.inl rfl)

/-- C5: whatever the executed code does to the process state and whether
or not the run fails, `run_code` hands back a state whose working
directory, module search path, argv and stdout stream are those it was
called with. -/
theorem run_code_restores_state
    (code_eff pre_eff func_eff : ExecEffect) (has_pre ns_empty has_function : Bool)
    (code_path workdir : Option String) (raises : Option String)
    (isinst : PyExn → String → Bool) (s0 : ProcState) :
    (run_code code_eff pre_eff func_eff has_pre ns_empty has_function
        code_path workdir raises isinst s0).1.cwd = s0.cwd ∧
    (run_code code_eff pre_eff func_eff has_pre ns_empty has_function
        code_path workdir raises isinst s0).1.sysPath = s0.sysPath ∧
    (run_code code_eff pre_eff func_eff has_pre ns_empty has_function
        code_path workdir raises isinst s0).1.argv = s0.argv ∧
    (run_code code_eff pre_eff func_eff has_pre ns_empty has_function
        code_path workdir raises isinst s0).1.stdoutId = s0.stdoutId :=
  ⟨rfl, rfl, rfl, rfl⟩

/-- C1 (failing input): with `raises = ValueError` and code that raises
no exception at all, `run_code` succeeds silently instead of failing
with the plot error the claim (and the directive's own documentation,
"The code runner will assert this error was raised by the enclosed
code") requires. -/
theorem run_code_accepts_missing_expected_exception :
    (run_code (fun s => (s, none)) (fun s => (s, none)) (fun s => (s, none))
        false false false none none (some "ValueError") (fun e c => e.cls = c)
        ⟨"/docs", [], [], 0, 1⟩).2 = .ok () := rfl

/-- C10 counterexample: a `show-to` list holding the builder name twice
(reachable from `include-source: false` plus `show-to: doctest`, which
yields `["doctest", "doctest"]`): after `_hide_from_builder` the name is
still in `show-to` (Python's `list.remove` removes one occurrence) and
the visibility query still answers true. -/
theorem hide_from_builder_dup_cex :
    hide_from_builder ⟨[], ["doctest", "doctest"]⟩ "doctest" =
      ⟨["doctest"], ["doctest"]⟩ ∧
    "doctest" ∈ (hide_from_builder ⟨[], ["doctest", "doctest"]⟩ "doctest").showTo ∧
    likes_builder (hide_from_builder ⟨[], ["doctest", "doctest"]⟩ "doctest").hideFrom
      (hide_from_builder ⟨[], ["doctest", "doctest"]⟩ "doctest").showTo "doctest" =
      true := by
  refine ⟨by decide, by decide, by decide⟩

/-- C10 (amended): provided the `show-to` list holds at most one
occurrence of the builder name, after `_hide_from_builder` the name is
absent from `show-to` and present in `hide-from`, the visibility query
answers false for that builder, and a second call leaves the attributes
unchanged. -/
theorem hide_from_builder_hides (attrs : BuilderAttrs) (n : String)
    (h : attrs.showTo.count n ≤ 1) :
    n ∉ (hide_from_builder attrs n).showTo ∧
    n ∈ (hide_from_builder attrs n).hideFrom ∧
    likes_builder (hide_from_builder attrs n).hideFrom
      (hide_from_builder attrs n).showTo n = false ∧
    hide_from_builder (hide_from_builder attrs n) n = hide_from_builder attrs n := by
  have hst : n ∉ (hide_from_builder attrs n).showTo := by
    rw [hide_from_builder_eq]
    show n ∉ if n ∈ attrs.showTo then attrs.showTo.erase n else attrs.showTo
    by_cases hmem : n ∈ attrs.showTo
    · rw [if_pos hmem]
      intro hbad
      have h1 := List.count_erase_self n attrs.showTo
      have h2 := List.count_pos_iff.mpr hbad
      omega
    · rw [if_neg hmem]; exact hmem
  have hhf : n ∈ (hide_from_builder attrs n).hideFrom := by
    rw [hide_from_builder_eq]
    show n ∈ if n ∈ attrs.hideFrom then attrs.hideFrom else attrs.hideFrom ++ [n]
    by_cases hmem : n ∈ attrs.hideFrom
    · rw [if_pos hmem]; exact hmem
    · rw [if_neg hmem]; exact List.mem_append_right _ (List.mem_singleton.mpr rfl)
  refine ⟨hst, hhf, ?_, ?_⟩
  · simp only [likes_builder]
    simp
    exact ⟨hst, fun _ => hhf⟩
  · rw [hide_from_builder_eq (hide_from_builder attrs n) n, if_pos hhf, if_neg hst]

/-- C10 witness: the `include-source: false` attribute pair. -/
theorem hide_from_builder_hides_witness :
    "doctest" ∉ (hide_from_builder ⟨["all"], ["doctest"]⟩ "doctest").showTo ∧
    "doctest" ∈ (hide_from_builder ⟨["all"], ["doctest"]⟩ "doctest").hideFrom ∧
    likes_builder (hide_from_builder ⟨["all"], ["doctest"]⟩ "doctest").hideFrom
      (hide_from_builder ⟨["all"], ["doctest"]⟩ "doctest").showTo "doctest" = false ∧
    hide_from_builder (hide_from_builder ⟨["all"], ["doctest"]⟩ "doctest") "doctest" =
      hide_from_builder ⟨["all"], ["doctest"]⟩ "doctest" :=
  hide_from_builder_hides ⟨["all"], ["doctest"]⟩ "doctest" (by decide)

/-- C7: when all image writes succeed, a single live figure yields one
image descriptor named exactly `output_base`, and `n > 1` live figures
yield `n` descriptors named `output_base` plus an underscore and the
zero-padded (`%02d`) index of the figure in registration order. -/
theorem render_figures_naming (nFigs : Nat) (ob od : String)
    (formats : List (String × Nat)) (savefigOk : Nat → String → Bool)
    (h : ∀ j f, savefigOk j f = true) :
    (nFigs = 1 → render_figures_harvest nFigs ob od formats savefigOk =
        .ok [⟨ob, od, formats.map (·.1)⟩]) ∧
    (1 < nFigs → render_figures_harvest nFigs ob od formats savefigOk =
        .ok ((List.range nFigs).map fun j =>
          ⟨ob ++ "_" ++ fmt02 j, od, formats.map (·.1)⟩)) := by
  have main : render_figures_harvest nFigs ob od formats savefigOk =
      .ok ((List.range nFigs).map fun j =>
        ⟨if nFigs = 1 then ob else ob ++ "_" ++ fmt02 j, od, formats.map (·.1)⟩) := by
    unfold render_figures_harvest
    apply mapM_ok_of_forall
    intro j _
    rw [mapM_ok_of_forall (g := (·.1)) fun fd _ => by rw [h j fd.1]; rfl]
    rfl
  constructor
  · intro h1
    subst h1
    simpa using main
  · intro h2
    have hne : nFigs ≠ 1 := by omega
    simpa [hne] using main

/-- C7 witness: one figure and three figures with a single `png`
format. -/
theorem render_figures_naming_witness :
    render_figures_harvest 1 "output_base" "dir" [("png", 80)] (fun _ _ => true) =
      .ok [⟨"output_base", "dir", ["png"]⟩] ∧
    render_figures_harvest 3 "output_base" "dir" [("png", 80)] (fun _ _ => true) =
      .ok [⟨"output_base_00", "dir", ["png"]⟩, ⟨"output_base_01", "dir", ["png"]⟩,
           ⟨"output_base_02", "dir", ["png"]⟩] := by
  constructor
  · exact ((render_figures_naming 1 "output_base" "dir" [("png", 80)] (fun _ _ => true)
      fun _ _ => rfl).1 rfl).trans (by rfl)
  · exact ((render_figures_naming 3 "output_base" "dir" [("png", 80)] (fun _ _ => true)
      fun _ _ => rfl).2 (by omega)).trans (by rfl)

/-- C8: after the builder is initialized and two distinct documents are
purged (the host fires `env-purge-doc` for a document before reading
it), the first access to a document's flag namespace sees exactly the
contents of the configured `nbplot_flags` mapping; and because the purge
installed a copy, a mutation made through one document's namespace is
visible there but not in the other document's namespace nor in the
configured default mapping. -/
theorem flag_namespace_isolation (e0 : Env) (d1 d2 k : String) (v : PyVal)
    (hne : d1 ≠ d2) (hcfg : e0.configFlagsCell < e0.store.length) :
    obsNs (do_purge_doc (do_purge_doc (do_builder_init e0) d1) d2) d1 =
      configFlags e0 ∧
    obsNs (setFlag (do_purge_doc (do_purge_doc (do_builder_init e0) d1) d2) d1 k v)
      d1 = dictInsert (configFlags e0) k v ∧
    obsNs (setFlag (do_purge_doc (do_purge_doc (do_builder_init e0) d1) d2) d1 k v)
      d2 = configFlags e0 ∧
    configFlags (setFlag (do_purge_doc (do_purge_doc (do_builder_init e0) d1) d2) d1 k v)
      = configFlags e0 := by
  have he3 : do_purge_doc (do_purge_doc (do_builder_init e0) d1) d2 =
      ⟨e0.store ++ [configFlags e0, configFlags e0],
       [(d2, e0.store.length + 1), (d1, e0.store.length)],
       [(d2, false), (d1, false)],
       e0.configFlagsCell⟩ := by
    unfold do_builder_init do_purge_doc
    rw [List.getD_append _ _ _ _ hcfg]
    simp [configFlags]
  rw [he3]
  have hfind1 : List.find? (fun p => p.1 = d1)
      [(d2, e0.store.length + 1), (d1, e0.store.length)] =
      some (d1, e0.store.length) := by
    rw [List.find?_cons_of_neg _ (by simp [Ne.symm hne]),
        List.find?_cons_of_pos _ (by simp)]
  have hfind2 : List.find? (fun p => p.1 = d2)
      [(d2, e0.store.length + 1), (d1, e0.store.length)] =
      some (d2, e0.store.length + 1) := by
    rw [List.find?_cons_of_pos _ (by simp)]
  have hsome1 : (e0.store ++ [configFlags e0, configFlags e0])[e0.store.length]? =
      some (configFlags e0) := by
    rw [List.getElem?_append_right (Nat.le_refl _)]
    simp
  have hsome2 : (e0.store ++ [configFlags e0, configFlags e0])[e0.store.length + 1]? =
      some (configFlags e0) := by
    rw [List.getElem?_append_right (by omega)]
    simp [show e0.store.length + 1 - e0.store.length = 1 by omega]
  have hget1 : (e0.store ++ [configFlags e0, configFlags e0]).getD e0.store.length []
      = configFlags e0 := by
    simp [List.getD, hsome1]
  have he4 : setFlag (⟨e0.store ++ [configFlags e0, configFlags e0],
       [(d2, e0.store.length + 1), (d1, e0.store.length)],
       [(d2, false), (d1, false)], e0.configFlagsCell⟩ : Env) d1 k v =
      ⟨(e0.store ++ [configFlags e0, configFlags e0]).set e0.store.length
         (dictInsert (configFlags e0) k v),
       [(d2, e0.store.length + 1), (d1, e0.store.length)],
       [(d2, false), (d1, false)],
       e0.configFlagsCell⟩ := by
    unfold setFlag accessFlagNs
    rw [hfind1]
    dsimp only
    rw [hget1]
  rw [he4]
  refine ⟨?_, ?_, ?_, ?_⟩
  · unfold obsNs
    rw [hfind1]
    exact hget1
  · unfold obsNs
    rw [hfind1]
    dsimp only
    have hlt : e0.store.length <
        (e0.store ++ [configFlags e0, configFlags e0]).length := by simp
    simp [List.getD, List.getElem?_set_self, hlt]
    rw [List.getElem_append_right (Nat.le_refl _)]
    simp
  · unfold obsNs
    rw [hfind2]
    dsimp only
    have hne' : e0.store.length ≠ e0.store.length + 1 := by omega
    simp [List.getD, List.getElem?_set_ne hne', hsome2]
    rw [List.getElem_append_right (by omega)]
    simp [show e0.store.length + 1 - e0.store.length = 1 by omega]
  · show ((e0.store ++ [configFlags e0, configFlags e0]).set e0.store.length
        (dictInsert (configFlags e0) k v)).getD e0.configFlagsCell [] = configFlags e0
    have hne' : e0.store.length ≠ e0.configFlagsCell := by omega
    simp only [List.getD, configFlags, List.get?_eq_getElem?, List.getElem?_set_ne hne']
    rw [List.getElem?_append_left hcfg]

/-- C8 witness: a one-entry default flag mapping and two documents. -/
theorem flag_namespace_isolation_witness :
    obsNs (do_purge_doc (do_purge_doc (do_builder_init ⟨[[("a", .int 1)]], [], [], 0⟩)
      "d1") "d2") "d1" = [("a", .int 1)] ∧
    obsNs (setFlag (do_purge_doc (do_purge_doc (do_builder_init
      ⟨[[("a", .int 1)]], [], [], 0⟩) "d1") "d2") "d1" "k" (.int 7)) "d1" =
      [("a", .int 1), ("k", .int 7)] ∧
    obsNs (setFlag (do_purge_doc (do_purge_doc (do_builder_init
      ⟨[[("a", .int 1)]], [], [], 0⟩) "d1") "d2") "d1" "k" (.int 7)) "d2" =
      [("a", .int 1)] ∧
    configFlags (setFlag (do_purge_doc (do_purge_doc (do_builder_init
      ⟨[[("a", .int 1)]], [], [], 0⟩) "d1") "d2") "d1" "k" (.int 7)) =
      [("a", .int 1)] := by
  have h := flag_namespace_isolation ⟨[[("a", .int 1)]], [], [], 0⟩ "d1" "d2" "k"
    (.int 7) (by decide) (by decide)
  refine ⟨h.1.trans rfl, (h.2.1).trans rfl, (h.2.2.1).trans rfl, (h.2.2.2).trans rfl⟩

/-- Reading a flag namespace (which may allocate the `defaultdict`'s
fresh empty dict for a missing docname) never changes the contents any
document observes. -/
theorem obsNs_accessFlagNs (e : Env) (d d' : String) (hwf : Env.WF e) :
    obsNs (accessFlagNs e d).1 d' = obsNs e d' := by
  unfold accessFlagNs
  cases hfind : e.flagCells.find? (fun p => p.1 = d) with
  | some p => rfl
  | none =>
    dsimp only
    unfold obsNs
    by_cases hd : d = d'
    · subst hd
      rw [List.find?_cons_of_pos _ (by simp), hfind]
      dsimp only
      simp [List.getD, List.getElem?_append_right]
    · rw [List.find?_cons_of_neg _ (by simp [hd])]
      cases hfind' : e.flagCells.find? (fun p => p.1 = d') with
      | none => rfl
      | some q =>
        dsimp only
        have hq : q ∈ e.flagCells := List.mem_of_find?_eq_some hfind'
        have hlt : q.2 < e.store.length := hwf.1 q hq
        simp [List.getD, List.getElem?_append_left hlt]

/-- C6: a `render-parts` / `run-parts` expression is evaluated against a
copy of the current flag namespace — no document's stored namespace
changes, whatever the evaluator does to its namespace argument — and
when the evaluation result is neither a single integer nor an ordered
sequence of integers, the part selection fails with an error. -/
theorem select_option_type_contract (e : Env) (docname expr d' : String)
    (parts : List Part) (evalF : String → Dict → Dict × PyVal)
    (hwf : Env.WF e)
    (hv : isIntOrIntSeq (eval_option e docname expr evalF).2 = false) :
    (select_option e docname parts (some expr) evalF).2.isOk = false ∧
    obsNs (select_option e docname parts (some expr) evalF).1 d' = obsNs e d' := by
  constructor
  · have hmap : ∀ (x : PyVal), x.isInt = false → ∀ y,
        (pyIndex parts x).map Part.contents ≠ Except.ok y := by
      intro x hx y
      cases x with
      | int n => simp [PyVal.isInt] at hx
      | float => simp [pyIndex, Except.map]
      | str s => simp [pyIndex, Except.map]
      | vlist l => simp [pyIndex, Except.map]
      | pynone => simp [pyIndex, Except.map]
    set v := (eval_option e docname expr evalF).2 with hveq
    have hvint : v.isInt = false ∧
        (v.isSequence = false ∨ v.seqElems.all PyVal.isInt = false) := by
      unfold isIntOrIntSeq at hv
      rcases Bool.or_eq_false_iff.mp hv with ⟨h1, h2⟩
      exact ⟨h1, Bool.and_eq_false_iff.mp h2⟩
    have hsel : (select_option e docname parts (some expr) evalF).2 =
        (if v.isSequence then v.seqElems else [v]).mapM
          (fun i => (pyIndex parts i).map Part.contents) := rfl
    rw [hsel]
    by_cases hvs : v.isSequence = true
    · rw [if_pos hvs]
      have hall : v.seqElems.all PyVal.isInt = false := by
        rcases hvint.2 with h | h
        · rw [hvs] at h; cases h
        · exact h
      obtain ⟨x, hxmem, hxint⟩ := List.all_eq_false.mp hall
      exact mapM_not_ok_of_mem hxmem
        (hmap x (Bool.not_eq_true _ ▸ Bool.of_not_eq_true hxint))
    · rw [if_neg hvs]
      exact mapM_not_ok_of_mem (List.mem_singleton.mpr rfl) (hmap v hvint.1)
  · exact obsNs_accessFlagNs e docname d' hwf

/-- C6 witness: an expression evaluating to a float on an empty parts
list; the selection errors and another document's namespace is
untouched. -/
theorem select_option_type_contract_witness :
    (select_option ⟨[[]], [], [], 0⟩ "doc" [] (some "2.5")
      (fun _ ns => (ns, PyVal.float))).2.isOk = false ∧
    obsNs (select_option ⟨[[]], [], [], 0⟩ "doc" [] (some "2.5")
      (fun _ ns => (ns, PyVal.float))).1 "other" = obsNs ⟨[[]], [], [], 0⟩ "other" :=
  select_option_type_contract ⟨[[]], [], [], 0⟩ "doc" "2.5" "other" []
    (fun _ ns => (ns, PyVal.float)) ⟨by simp, by decide⟩ rfl

/-! ### Splitter / join facts used for the part parser -/

theorem getLast?_cons_ne_nil {α : Type} (a : α) {l : List α} (h : l ≠ []) :
    (a :: l).getLast? = l.getLast? := by
  cases l with
  | nil => exact absurd rfl h
  | cons x t => exact List.getLast?_cons_cons

theorem string_eq_empty_of_toList {s : String} (h : s.toList = []) : s = "" := by
  cases s with
  | mk data =>
    simp only [String.toList] at h
    simp [h]

theorem joinNL_cons_cons_toList (s u : String) (r : List String) :
    (joinNL (s :: u :: r)).toList = s.toList ++ '\n' :: (joinNL (u :: r)).toList := by
  rw [joinNL]
  rw [show ((s ++ "\n") ++ joinNL (u :: r)).toList =
      (s.toList ++ ['\n']) ++ (joinNL (u :: r)).toList from rfl]
  simp

theorem splitPred_ne_nil (p : Char → Bool) (cs : List Char) : splitPred p cs ≠ [] := by
  induction cs with
  | nil => simp [splitPred]
  | cons c t ih =>
    rw [splitPred]
    by_cases hc : p c = true
    · simp [hc]
    · rw [if_neg hc]
      cases hsp : splitPred p t with
      | nil => simp
      | cons h r => simp

theorem splitPred_no_sep (p : Char → Bool) (cs : List Char)
    (h : ∀ c ∈ cs, p c = false) : splitPred p cs = [cs] := by
  induction cs with
  | nil => rfl
  | cons c t ih =>
    rw [splitPred, if_neg (by rw [h c (List.mem_cons_self c t)]; simp),
        ih fun c hc => h c (List.mem_cons_of_mem _ hc)]

theorem splitPred_append (p : Char → Bool) (x y : List Char)
    (hx : ∀ c ∈ x, p c = false) (c0 : Char) (hc0 : p c0 = true) :
    splitPred p (x ++ c0 :: y) = x :: splitPred p y := by
  induction x with
  | nil => rw [List.nil_append, splitPred, if_pos hc0]
  | cons c t ih =>
    rw [List.cons_append, splitPred,
        if_neg (by rw [hx c (List.mem_cons_self c t)]; simp),
        ih fun c hc => hx c (List.mem_cons_of_mem _ hc)]

theorem mem_splitPred (p : Char → Bool) (cs : List Char) (ch : List Char)
    (h : ch ∈ splitPred p cs) : ∀ c ∈ ch, p c = false := by
  induction cs generalizing ch with
  | nil =>
    rw [splitPred] at h
    rcases List.mem_singleton.mp h with rfl
    intro c hc
    cases hc
  | cons c t ih =>
    rw [splitPred] at h
    by_cases hc : p c = true
    · rw [if_pos hc] at h
      rcases List.mem_cons.mp h with rfl | h2
      · intro c hc2; cases hc2
      · exact ih ch h2
    · rw [if_neg hc] at h
      cases hsp : splitPred p t with
      | nil => exact absurd hsp (splitPred_ne_nil p t)
      | cons h0 r =>
        rw [hsp] at h
        rcases List.mem_cons.mp h with rfl | h2
        · intro d hd
          rcases List.mem_cons.mp hd with rfl | hd2
          · exact Bool.eq_false_iff.mpr hc
          · exact ih h0 (hsp ▸ List.mem_cons_self h0 r) d hd2
        · exact ih ch (hsp ▸ List.mem_cons_of_mem h0 h2)

theorem splitPred_getLast_ne_nil (p : Char → Bool) : ∀ (cs : List Char),
    cs ≠ [] → (∀ c, cs.getLast? = some c → p c = false) →
    ∀ ch, (splitPred p cs).getLast? = some ch → ch ≠ [] := by
  intro cs
  induction cs with
  | nil => intro h; exact absurd rfl h
  | cons c t ih =>
    intro _ hlast ch hch
    cases t with
    | nil =>
      have hc : p c = false := hlast c rfl
      rw [splitPred, if_neg (by rw [hc]; simp)] at hch
      rw [show splitPred p [] = [[]] from rfl] at hch
      rcases Option.some.inj hch with rfl
      simp
    | cons u r =>
      have hlast' : ∀ d, (u :: r).getLast? = some d → p d = false := by
        intro d hd
        exact hlast d ((List.getLast?_cons_cons).trans hd)
      rw [splitPred] at hch
      by_cases hc : p c = true
      · rw [if_pos hc] at hch
        rw [getLast?_cons_ne_nil _ (splitPred_ne_nil p (u :: r))] at hch
        exact ih (by simp) hlast' ch hch
      · rw [if_neg hc] at hch
        cases hsp : splitPred p (u :: r) with
        | nil => exact absurd hsp (splitPred_ne_nil p (u :: r))
        | cons h0 r2 =>
          rw [hsp] at hch
          cases r2 with
          | nil =>
            rcases Option.some.inj hch with rfl
            simp
          | cons h1 r3 =>
            rw [List.getLast?_cons_cons] at hch
            have : ((h0 :: h1 :: r3) : List (List Char)).getLast? = some ch := by
              rw [List.getLast?_cons_cons]; exact hch
            exact ih (by simp) hlast' ch (hsp ▸ this)

theorem head?_dropWhile_not (p : Char → Bool) : ∀ (l : List Char) (c : Char),
    (l.dropWhile p).head? = some c → p c = false := by
  intro l
  induction l with
  | nil => intro c h; cases h
  | cons a t ih =>
    intro c h
    rw [List.dropWhile_cons] at h
    by_cases hpa : p a = true
    · rw [if_pos hpa] at h
      exact ih c h
    · rw [if_neg hpa] at h
      rcases Option.some.inj h with rfl
      exact Bool.eq_false_iff.mpr hpa

/-- The last character of a stripped string is not whitespace. -/
theorem pyStrip_getLast_not_ws (s : String) (c : Char)
    (h : (pyStrip s).toList.getLast? = some c) : pyWSChar c = false := by
  unfold pyStrip at h
  rw [show (String.mk ((((s.toList.dropWhile pyWSChar)).reverse.dropWhile
      pyWSChar)).reverse).toList = (((s.toList.dropWhile pyWSChar)).reverse.dropWhile
      pyWSChar).reverse from rfl, List.getLast?_reverse] at h
  exact head?_dropWhile_not pyWSChar _ c h

theorem mem_pySplitlines_no_nl (s x : String) (h : x ∈ pySplitlines s) :
    '\n' ∉ x.toList := by
  unfold pySplitlines at h
  by_cases hs : s = ""
  · rw [if_pos hs] at h; cases h
  · rw [if_neg hs] at h
    have hsub : x ∈ (splitNL s.toList).map String.mk := by
      by_cases hlast : s.toList.getLast? = some '\n'
      · rw [if_pos hlast] at h
        exact List.dropLast_subset _ h
      · rw [if_neg hlast] at h
        exact h
    obtain ⟨ch, hch, rfl⟩ := List.mem_map.mp hsub
    intro hnl
    have := mem_splitPred _ _ ch hch '\n' hnl
    simp at this

/-- The last line produced by splitting a stripped string is never
empty. -/
theorem pySplitlines_pyStrip_getLast (s : String) :
    (pySplitlines (pyStrip s)).getLast? ≠ some "" := by
  unfold pySplitlines
  by_cases hs : pyStrip s = ""
  · simp [hs]
  · rw [if_neg hs]
    have hlastc : ∀ c, (pyStrip s).toList.getLast? = some c → c ≠ '\n' := by
      intro c hc heq
      subst heq
      have := pyStrip_getLast_not_ws s '\n' hc
      simp [pyWSChar] at this
    have hnl : ¬ (pyStrip s).toList.getLast? = some '\n' := by
      intro hbad
      exact hlastc '\n' hbad rfl
    rw [if_neg hnl]
    intro hbad
    rw [List.getLast?_map] at hbad
    cases hlast : (splitNL (pyStrip s).toList).getLast? with
    | none => rw [hlast] at hbad; cases hbad
    | some ch =>
      rw [hlast] at hbad
      have hch : ch ≠ [] := by
        refine splitPred_getLast_ne_nil _ (pyStrip s).toList ?_
          (fun c hc => by simp [Bool.eq_false_iff]; exact hlastc c hc) ch hlast
        intro hnil
        exact hs (string_eq_empty_of_toList hnil)
      have hmk : String.mk ch = "" := Option.some.inj hbad
      have h2 : (String.mk ch).toList = ("" : String).toList := by rw [hmk]
      exact hch (by simpa using h2)

theorem joinNL_props : ∀ (l : List String), l ≠ [] →
    (∀ s ∈ l, '\n' ∉ s.toList) → l.getLast? ≠ some "" →
    (joinNL l).toList ≠ [] ∧ (joinNL l).toList.getLast? ≠ some '\n' := by
  intro l
  induction l with
  | nil => intro h; exact absurd rfl h
  | cons s t ih =>
    intro _ h1 h2
    cases t with
    | nil =>
      have hs : s ≠ "" := by
        intro hbad
        exact h2 (by rw [hbad]; rfl)
      constructor
      · show s.toList ≠ []
        intro hbad
        exact hs (string_eq_empty_of_toList hbad)
      · show s.toList.getLast? ≠ some '\n'
        intro hbad
        exact h1 s (List.mem_cons_self _ _) (List.mem_of_mem_getLast? hbad)
    | cons u r =>
      have ih2 := ih (by simp)
        (fun x hx => h1 x (List.mem_cons_of_mem _ hx))
        (by rwa [List.getLast?_cons_cons] at h2)
      have hdata := joinNL_cons_cons_toList s u r
      constructor
      · rw [hdata]
        simp
      · rw [hdata, List.getLast?_append_of_ne_nil _ (by simp)]
        cases hjt : (joinNL (u :: r)).toList with
        | nil => exact absurd hjt ih2.1
        | cons a b =>
          rw [List.getLast?_cons_cons]
          rw [hjt] at ih2
          exact ih2.2

/-- Splitting the `'\n'`-join of lines recovers the lines, provided no
line contains a newline and the last line is not empty. -/
theorem pySplitlines_joinNL : ∀ (l : List String),
    (∀ s ∈ l, '\n' ∉ s.toList) → l.getLast? ≠ some "" →
    pySplitlines (joinNL l) = l := by
  intro l
  induction l with
  | nil => intro _ _; rfl
  | cons s t ih =>
    intro h1 h2
    cases t with
    | nil =>
      have hs : s ≠ "" := fun hbad => h2 (by rw [hbad]; rfl)
      show pySplitlines (joinNL [s]) = [s]
      rw [show joinNL [s] = s from rfl]
      unfold pySplitlines
      rw [if_neg hs]
      have hnl : ¬ s.toList.getLast? = some '\n' := by
        intro hbad
        exact h1 s (List.mem_cons_self _ _) (List.mem_of_mem_getLast? hbad)
      rw [if_neg hnl, show splitNL s.toList = [s.toList] from
        splitPred_no_sep _ s.toList (fun c hc => by
          simp [Bool.eq_false_iff]
          intro heq
          subst heq
          exact h1 s (List.mem_cons_self _ _) hc)]
      rfl
    | cons u r =>
      have h1' : ∀ x ∈ u :: r, '\n' ∉ x.toList :=
        fun x hx => h1 x (List.mem_cons_of_mem _ hx)
      have h2' : (u :: r).getLast? ≠ some "" := by
        rwa [List.getLast?_cons_cons] at h2
      have hprops := joinNL_props (u :: r) (by simp) h1' h2'
      have hdata := joinNL_cons_cons_toList s u r
      unfold pySplitlines
      rw [if_neg (by
        intro hbad
        have : (joinNL (s :: u :: r)).toList = [] := by rw [hbad]; rfl
        rw [hdata] at this
        simp at this)]
      rw [if_neg (by
        rw [hdata, List.getLast?_append_of_ne_nil _ (by simp)]
        cases hjt : (joinNL (u :: r)).toList with
        | nil => exact absurd hjt hprops.1
        | cons a b =>
          rw [List.getLast?_cons_cons]
          rw [hjt] at hprops
          exact hprops.2)]
      rw [show splitNL (joinNL (s :: u :: r)).toList =
          s.toList :: splitNL (joinNL (u :: r)).toList from by
        rw [hdata]
        exact splitPred_append _ s.toList _ (fun c hc => by
          simp [Bool.eq_false_iff]
          intro heq; subst heq
          exact h1 s (List.mem_cons_self _ _) hc) '\n' (by simp)]
      have iheq := ih h1' h2'
      unfold pySplitlines at iheq
      rw [if_neg (by
        intro hbad
        have : (joinNL (u :: r)).toList = [] := by rw [hbad]; rfl
        exact hprops.1 this)] at iheq
      rw [if_neg hprops.2] at iheq
      rw [List.map_cons]
      rw [show String.mk s.toList = s from rfl]
      rw [show (splitNL (joinNL (u :: r)).toList).map String.mk = u :: r from iheq]

/-- C3 counterexample: the input lines `["", "a"]` contain no part
separator, yet the single returned part has contents `["a"]`, not the
original lines — `parse_parts` strips the joined text before
splitting, so a leading blank line is dropped. -/
theorem parse_parts_strip_cex :
    findSep (pySplitlines (pyStrip (joinNL ["", "a"]))) 0 = none ∧
    parse_parts ["", "a"] = .ok [⟨[], ["a"]⟩] ∧
    ¬ parse_parts ["", "a"] = .ok [⟨[], ["", "a"]⟩] := by
  refine ⟨by decide, rfl, ?_⟩
  intro hbad
  rw [show parse_parts ["", "a"] = Except.ok [(⟨[], ["a"]⟩ : Part)] from rfl] at hbad
  exact absurd (Except.ok.inj hbad) (by decide)

/-- C3 (amended): for every directive-content line list whose stripped
joined text contains no part-separator match, `parse_parts` returns
exactly one part with an empty attribute mapping whose contents are the
lines of the stripped text — i.e. the original lines up to the removal
of leading/trailing whitespace of the joined text; they equal the
original lines whenever the joined text is already stripped. -/
theorem parse_parts_no_separator (lines : List String)
    (h : findSep (pySplitlines (pyStrip (joinNL lines))) 0 = none) :
    parse_parts lines = .ok [⟨[], pySplitlines (pyStrip (joinNL lines))⟩] := by
  unfold parse_parts
  dsimp only
  have hscan : scanParts (pySplitlines (pyStrip (joinNL lines))) 0
      ((pySplitlines (pyStrip (joinNL lines))).length + 1) =
      [joinNL ((pySplitlines (pyStrip (joinNL lines))).drop 0)] := by
    rw [scanParts, h]
  rw [hscan, List.drop_zero]
  dsimp only
  rw [pySplitlines_joinNL (pySplitlines (pyStrip (joinNL lines)))
    (fun x hx => mem_pySplitlines_no_nl (pyStrip (joinNL lines)) x hx)
    (pySplitlines_pyStrip_getLast (joinNL lines))]

/-- C3 witness: two plain code lines come back as one attribute-less
part holding exactly those lines. -/
theorem parse_parts_no_separator_witness :
    parse_parts ["x = 1", "y = 2"] = .ok [⟨[], ["x = 1", "y = 2"]⟩] := by
  have h := parse_parts_no_separator ["x = 1", "y = 2"] (by decide)
  rw [h]
  rfl

end Nbplots
